import Mathlib

set_option maxRecDepth 10000

/-!
Verification development for the data-acquisition daemon in `src/lib.rs`.

The wire decoder, the descriptor registry, the string table and the
`Daemon::run` state machine are embedded shallowly: byte streams are
`List Nat`, machine integers are `Nat` composed little-endian, fallible
reads return `Option`/`Outcome`, and Rust panics (array indexing out of
bounds, `unwrap` on `None`, the panic macro, `usize` underflow) are kept
apart from `Err` results by a dedicated constructor, since they abort the
process instead of propagating as recoverable errors.
-/

namespace Dae

/-- Protocol magic constant of the source (`const PROTOCOL: u32 = 0xFEEDBEEF`). -/
def PROTOCOL : Nat := 0xFEEDBEEF

/-- Message type tags (`enum MsgType`). -/
inductive MsgType
  | invalid
  | str
  | entry
  | desc
deriving DecidableEq, Repr

/-- Embeds `impl From<u8> for MsgType`: 1 is Str, 2 is Entry, 3 is Desc,
anything else is Invalid. -/
def msgTypeFromByte (t : Nat) : MsgType :=
  if t = 1 then .str else if t = 2 then .entry else if t = 3 then .desc else .invalid

/-- Embeds `enum FieldType`. Float payloads are modelled by their 32-bit wire
pattern: no claim depends on IEEE-754 arithmetic, only on widths and tags,
so the `f32`-widened-to-`f64` payload is carried as the raw bits. -/
inductive FieldType
  | int (v : Nat)
  | float (bits : Nat)
  | bool (v : Bool)
  | str (sid : Nat)
deriving DecidableEq, Repr

/-- Embeds `impl From<u8> for FieldType`. The source match arms accept tags
1 to 4; the wildcard arm prints the tag and then aborts the process with
the panic macro, which is modelled as `none`. -/
def fieldTypeFromByte (t : Nat) : Option FieldType :=
  if t = 1 then some (.int 0)
  else if t = 2 then some (.float 0)
  else if t = 3 then some (.bool false)
  else if t = 4 then some (.str 0)
  else none

/-- Embeds `impl ToString for FieldType`. -/
def FieldType.sqlName : FieldType → String
  | .int _ => "INTEGER"
  | .float _ => "REAL"
  | .bool _ => "INTEGER"
  | .str _ => "TEXT"

/-- Discriminant of a `FieldType`, numbered like the wire tag producing it. -/
def FieldType.tag : FieldType → Nat
  | .int _ => 1
  | .float _ => 2
  | .bool _ => 3
  | .str _ => 4

/-- Embeds `struct FieldDescriptor`. -/
structure FieldDescriptor where
  data_type : FieldType
  name : Nat
deriving DecidableEq, Repr

/-- Embeds `enum Error` of the daemon. -/
inductive Error
  | space
  | readFailure
  | fatal (m : String)
deriving DecidableEq, Repr

/-- Result of a fallible source operation. Rust panics abort the process
rather than returning `Err`, so they are kept distinct from `Error` by the
`panic` constructor. -/
inductive Outcome (α : Type)
  | ok (a : α)
  | err (e : Error)
  | panic (m : String)
deriving DecidableEq, Repr

/-- Value bound to an insert-statement parameter: the `&dyn rusqlite::ToSql`
pushed by the entry loop, pointing at the mutated field payload. -/
inductive SqlValue
  | int (v : Nat)
  | real (bits : Nat)
  | bool (v : Bool)
  | strId (sid : Nat)
deriving DecidableEq, Repr

/-- Discriminant of a bound value, numbered like the field tags. -/
def SqlValue.kind : SqlValue → Nat
  | .int _ => 1
  | .real _ => 2
  | .bool _ => 3
  | .strId _ => 4

/-- Little-endian 32-bit value of four bytes (`u32::from_le_bytes`). -/
def leU32 (b0 b1 b2 b3 : Nat) : Nat :=
  b0 + b1 * 256 + b2 * 65536 + b3 * 16777216

/-- Reads a 4-byte little-endian integer (`read_exact` into a 4-byte buffer
followed by `u32::from_le_bytes`); `none` models the read failing. -/
def readU32 : List Nat → Option (Nat × List Nat)
  | b0 :: b1 :: b2 :: b3 :: rest => some (leU32 b0 b1 b2 b3, rest)
  | _ => none

/-- Reads one byte. -/
def readU8 : List Nat → Option (Nat × List Nat)
  | b :: rest => some (b, rest)
  | _ => none

/-- Reads exactly `n` bytes (`read_exact` into an `n`-byte buffer). -/
def readExact (n : Nat) (bs : List Nat) : Option (List Nat × List Nat) :=
  if n ≤ bs.length then some (bs.take n, bs.drop n) else none

/-- Embeds `FieldDescriptor::sql_from_raw`: reads the field's wire payload,
whose width is chosen by the tag, stores it into the field in place (the
source takes `&mut self` and overwrites the payload), and returns the value
to bind. `none` models the `std::io::Error` of a failed `read_exact`. -/
def sql_from_raw (fd : FieldDescriptor) (bs : List Nat) :
    Option (FieldDescriptor × SqlValue × List Nat) :=
  match fd.data_type with
  | .int _ =>
    match readU32 bs with
    | some (v, rest) => some ({ fd with data_type := .int v }, .int v, rest)
    | none => none
  | .float _ =>
    match readU32 bs with
    | some (v, rest) => some ({ fd with data_type := .float v }, .real v, rest)
    | none => none
  | .bool _ =>
    match readU8 bs with
    | some (b, rest) => some ({ fd with data_type := .bool (0 < b) }, .bool (0 < b), rest)
    | none => none
  | .str _ =>
    match readU32 bs with
    | some (v, rest) => some ({ fd with data_type := .str v }, .strId v, rest)
    | none => none

/-- Embeds `struct EntryDescriptor`. The 32-slot field array is a list whose
length is 32 for every descriptor built by `EntryDescriptor.make`. -/
structure EntryDescriptor where
  sql_cmd : String
  name : Nat
  num_fields : Nat
  fields : List (Option FieldDescriptor)
deriving DecidableEq, Repr

/-- Embeds `EntryDescriptor::make`. -/
def EntryDescriptor.make : EntryDescriptor :=
  { sql_cmd := "INSERT INTO ", name := 0, num_fields := 0, fields := List.replicate 32 none }

/-- Embeds the column-name loop of `EntryDescriptor::compile`
(`for i in 0..num_fields`): `c` counts the iterations left, so the loop
index `i` satisfies `i + c = n` at every call. Array indexing and `unwrap`
failures abort the process. -/
def compileCols (strings : List String) (fields : List (Option FieldDescriptor)) (n : Nat) :
    Nat → Nat → String → Outcome String
  | 0, _, acc => .ok acc
  | c + 1, i, acc =>
    match fields[i]? with
    | none => .panic "index out of bounds"
    | some none => .panic "unwrap on None"
    | some (some f) =>
      match strings[f.name]? with
      | none => .panic "unwrap on None"
      | some fn =>
        compileCols strings fields n c (i + 1)
          (if i < n - 1 then acc ++ fn ++ ", " else acc ++ fn ++ ")")

/-- Embeds the placeholder loop of `EntryDescriptor::compile`
(`for i in 1..num_fields`, writing one `?<i>, ` per round); `c` counts
the iterations left. -/
def compilePlaceholders : Nat → Nat → String → String
  | 0, _, acc => acc
  | c + 1, i, acc => compilePlaceholders c (i + 1) (acc ++ "?" ++ toString i ++ ", ")

/-- Embeds `EntryDescriptor::compile`: appends the resolved table name, the
column-name list and the positional placeholders to `sql_cmd`. The source's
`strings.get(..).unwrap()` aborts when a name id is not interned. -/
def EntryDescriptor.compile (d : EntryDescriptor) (strings : List String) :
    Outcome EntryDescriptor :=
  match strings[d.name]? with
  | none => .panic "unwrap on None"
  | some nm =>
    match compileCols strings d.fields d.num_fields d.num_fields 0 (d.sql_cmd ++ nm ++ " (") with
    | .ok s =>
      .ok { d with sql_cmd :=
        compilePlaceholders (d.num_fields - 1) 1 (s ++ " VALUES (")
          ++ "?" ++ toString d.num_fields ++ ")" }
    | .err e => .err e
    | .panic m => .panic m

/-- Embeds the loop of `EntryDescriptor::make_create_cmd`
(`for i in 0..num_fields - 1`, pushing one `<name> <sql type>, ` per
column); `c` counts the iterations left. -/
def createCols (strings : List String) (fields : List (Option FieldDescriptor)) :
    Nat → Nat → String → Outcome String
  | 0, _, acc => .ok acc
  | c + 1, i, acc =>
    match fields[i]? with
    | none => .panic "index out of bounds"
    | some none => .panic "unwrap on None"
    | some (some f) =>
      match strings[f.name]? with
      | none => .panic "index out of bounds"
      | some fn =>
        createCols strings fields c (i + 1) (acc ++ fn ++ " " ++ f.data_type.sqlName ++ ", ")

/-- Embeds `EntryDescriptor::make_create_cmd`. With `num_fields = 0` the
source's range bound `num_fields - 1` underflows a `usize` subtraction,
aborting the process; otherwise the loop emits all but the last column and
the last column is pushed together with the closing parenthesis. -/
def EntryDescriptor.make_create_cmd (d : EntryDescriptor) (strings : List String) :
    Outcome String :=
  match strings[d.name]? with
  | none => .panic "index out of bounds"
  | some nm =>
    if d.num_fields = 0 then .panic "attempt to subtract with overflow"
    else
      match createCols strings d.fields (d.num_fields - 1) 0 ("CREATE TABLE " ++ nm ++ " (") with
      | .ok s =>
        match d.fields[d.num_fields - 1]? with
        | none => .panic "index out of bounds"
        | some none => .panic "unwrap on None"
        | some (some f) =>
          match strings[f.name]? with
          | none => .panic "index out of bounds"
          | some fn => .ok (s ++ fn ++ " " ++ f.data_type.sqlName ++ ")")
      | .err e => .err e
      | .panic m => .panic m

/-- Embeds the field loop of `Daemon::read_descriptor`
(`for i in 0..msg_num_fields`): reads a 1-byte tag and a 4-byte name id,
converts the tag (aborting on an unknown one) and writes the field at
index `i` of the fixed 32-slot array (aborting when `i` is out of bounds).
`c` counts the iterations left. -/
def read_fields : Nat → Nat → List (Option FieldDescriptor) → List Nat →
    Outcome (List (Option FieldDescriptor) × List Nat)
  | 0, _, fields, bs => .ok (fields, bs)
  | c + 1, i, fields, bs =>
    match readU8 bs with
    | none => .err .readFailure
    | some (tagB, bs1) =>
      match readU32 bs1 with
      | none => .err .readFailure
      | some (nmId, bs2) =>
        match fieldTypeFromByte tagB with
        | none => .panic "invalid field tag"
        | some dt =>
          if i < fields.length then
            read_fields c (i + 1) (fields.set i (some ⟨dt, nmId⟩)) bs2
          else .panic "index out of bounds"

/-- Embeds `Daemon::read_descriptor`: a 4-byte uid, a 4-byte table-name id,
a 1-byte field count, then the field loop. Returns the descriptor, the uid
and the unconsumed bytes. -/
def read_descriptor (bs : List Nat) : Outcome (EntryDescriptor × Nat × List Nat) :=
  match readU32 bs with
  | none => .err .readFailure
  | some (msg_id, bs1) =>
    match readU32 bs1 with
    | none => .err .readFailure
    | some (msg_name, bs2) =>
      match readU8 bs2 with
      | none => .err .readFailure
      | some (n, bs3) =>
        match read_fields n 0 EntryDescriptor.make.fields bs3 with
        | .ok (fields, rest) =>
          .ok ({ EntryDescriptor.make with num_fields := n, name := msg_name, fields := fields },
               msg_id, rest)
        | .err e => .err e
        | .panic m => .panic m

/-- Embeds `Daemon::find_descriptor`: reads a 4-byte uid; reports a fatal
error when `register.len() < uid`; otherwise indexes `register[uid]`, which
aborts exactly when `uid` equals the length. Returns the index in place of
the source's mutable reference. -/
def find_descriptor (bs : List Nat) (register : List EntryDescriptor) :
    Outcome (Nat × List Nat) :=
  match readU32 bs with
  | none => .err .space
  | some (uid, rest) =>
    if register.length < uid then .err (.fatal "Uid not found among the descriptors")
    else if uid < register.length then .ok (uid, rest)
    else .panic "index out of bounds"

/-- Embeds `Daemon::register_descriptor`. -/
def register_descriptor (desc : EntryDescriptor) (uid : Nat)
    (register : List EntryDescriptor) : Outcome (List EntryDescriptor) :=
  if uid ≠ register.length then .err (.fatal "Unexpected UID")
  else .ok (register ++ [desc])

/-- Embeds the field loop of the `EntryParsing` arm of `Daemon::run`: walks
the descriptor's 32 slots in order, decoding one value per populated slot
(mutating the slot through the source's `&mut` borrow) and stopping at the
first empty slot; a failed decode sets the `failed` flag and stops. Returns
the updated slots, the bound values in field order, the unconsumed bytes
and the flag. -/
def process_fields : List (Option FieldDescriptor) → List Nat →
    List (Option FieldDescriptor) × List SqlValue × List Nat × Bool
  | [], bs => ([], [], bs, false)
  | none :: t, bs => (none :: t, [], bs, false)
  | some fd :: t, bs =>
    match sql_from_raw fd bs with
    | none => (some fd :: t, [], bs, true)
    | some (fd', v, rest) =>
      match process_fields t rest with
      | (t', vs, rest', failed) => (some fd' :: t', v :: vs, rest', failed)

/-- Models `String::from_utf8` on the ASCII range: every byte below 128
decodes to itself and any other byte is treated as invalid. All text the
claims exercise is ASCII, where this agrees with UTF-8. -/
def string_from_utf8 (bs : List Nat) : Option String :=
  if bs.all (fun b => b < 128) then some (String.mk (bs.map (fun b => Char.ofNat b)))
  else none

/-- Session-owned state of `struct Protocol`: the descriptor registry and
the string table, plus the log of statements issued to the storage sink
(the source's `con.execute` calls, which are external I/O). -/
structure Proto where
  descriptors : List EntryDescriptor
  strings : List String
  creates : List String
  inserts : List (String × List SqlValue)
deriving DecidableEq, Repr

/-- Fresh session state: a new `Protocol` with both tables empty. -/
def proto0 : Proto := ⟨[], [], [], []⟩

/-- States of the `Daemon::run` loop (`enum State`). -/
inductive State
  | headerParsing
  | descParsing
  | entryParsing
  | stringParsing
deriving DecidableEq, Repr

/-- Terminal outcome of running the loop on a finite byte stream.
`awaiting` models the loop blocking for more transport bytes (the source
sleeps and retries the read); `fatal` is the loop returning `Err`;
`panicked` is a process abort; `fuelOut` means the step budget ran out. -/
inductive RunResult
  | awaiting (p : Proto)
  | fatal (e : Error) (p : Proto)
  | panicked (m : String) (p : Proto)
  | fuelOut (p : Proto)
deriving DecidableEq, Repr

/-- One transition of the loop: a next state with updated session state and
stream position, or termination. -/
inductive StepOut
  | next (s : State) (p : Proto) (bs : List Nat) : StepOut
  | term (r : RunResult) : StepOut
deriving DecidableEq, Repr

/-- Embeds the `HeaderParsing` arm: reads the 4-byte magic and the 1-byte
type; with too few bytes the loop blocks for more input; on a magic
mismatch it logs and retries with the 5 read bytes already consumed;
otherwise it dispatches on the message type. -/
def headerStep (p : Proto) (bs : List Nat) : StepOut :=
  match bs with
  | b0 :: b1 :: b2 :: b3 :: b4 :: rest =>
    if leU32 b0 b1 b2 b3 = PROTOCOL then
      match msgTypeFromByte b4 with
      | .desc => .next .descParsing p rest
      | .entry => .next .entryParsing p rest
      | .str => .next .stringParsing p rest
      | .invalid => .next .headerParsing p rest
    else .next .headerParsing p rest
  | _ => .term (.awaiting p)

/-- Embeds the `DescParsing` arm: decodes the descriptor, compiles its
insert text and create DDL against the current string table, registers it
(an out-of-sequence uid propagates as a fatal error through the source's
question-mark operator) and issues the create command to the sink. A read
failure logs and resumes at header parsing. -/
def descStep (p : Proto) (bs : List Nat) : StepOut :=
  match read_descriptor bs with
  | .ok (desc, uid, rest) =>
    match desc.compile p.strings with
    | .ok desc =>
      match desc.make_create_cmd p.strings with
      | .ok create_cmd =>
        match register_descriptor desc uid p.descriptors with
        | .ok reg =>
          .next .headerParsing
            { p with descriptors := reg, creates := p.creates ++ [create_cmd] } rest
        | .err e => .term (.fatal e p)
        | .panic m => .term (.panicked m p)
      | .err e => .term (.fatal e p)
      | .panic m => .term (.panicked m p)
    | .err e => .term (.fatal e p)
    | .panic m => .term (.panicked m p)
  | .err .readFailure => .next .headerParsing p bs
  | .err e => .term (.fatal e p)
  | .panic m => .term (.panicked m p)

/-- Embeds the `EntryParsing` arm: resolves the referenced descriptor
(insufficient bytes logs and resumes at the header; an unknown uid is
fatal; a uid equal to the registry length aborts on the index), decodes
the fields through the registry slot the source borrows mutably (the
updated descriptor is written back), and, unless a field decode failed,
issues the compiled insert with the bound values. -/
def entryStep (p : Proto) (bs : List Nat) : StepOut :=
  match find_descriptor bs p.descriptors with
  | .ok (uid, rest) =>
    let desc := p.descriptors.getD uid EntryDescriptor.make
    match process_fields desc.fields rest with
    | (fields', params, rest', failed) =>
      let desc' := { desc with fields := fields' }
      let p' := { p with descriptors := p.descriptors.set uid desc' }
      .next .headerParsing
        (if failed then p' else { p' with inserts := p'.inserts ++ [(desc'.sql_cmd, params)] })
        rest'
  | .err .space => .next .headerParsing p bs
  | .err e => .term (.fatal e p)
  | .panic m => .term (.panicked m p)

/-- Embeds the `StringParsing` arm: reads the 4-byte uid and 4-byte length
(failures log and resume at the header), rejects an out-of-sequence uid by
resuming at the header with the table unchanged, then reads and validates
the declared bytes of text and interns them. -/
def stringParse (p : Proto) (bs : List Nat) : StepOut :=
  match readU32 bs with
  | none => .next .headerParsing p bs
  | some (uid, bs1) =>
    match readU32 bs1 with
    | none => .next .headerParsing p bs1
    | some (size, bs2) =>
      if uid ≠ p.strings.length then .next .headerParsing p bs2
      else
        match readExact size bs2 with
        | none => .next .headerParsing p bs2
        | some (strBytes, bs3) =>
          match string_from_utf8 strBytes with
          | none => .next .headerParsing p bs3
          | some s => .next .headerParsing { p with strings := p.strings ++ [s] } bs3

/-- One iteration of the `Daemon::run` match. -/
def step : State → Proto → List Nat → StepOut
  | .headerParsing, p, bs => headerStep p bs
  | .descParsing, p, bs => descStep p bs
  | .entryParsing, p, bs => entryStep p bs
  | .stringParsing, p, bs => stringParse p bs

/-- Embeds `Daemon::run` on a finite byte stream, with a step budget. -/
def run : Nat → State → Proto → List Nat → RunResult
  | 0, _, p, _ => .fuelOut p
  | fuel + 1, s, p, bs =>
    match step s p bs with
    | .next s' p' bs' => run fuel s' p' bs'
    | .term r => r

/-- Wire form of one descriptor field, a tag byte and four name-id bytes:
statement-side encoding apparatus for the layout theorems. -/
structure RawField where
  tag : Nat
  n0 : Nat
  n1 : Nat
  n2 : Nat
  n3 : Nat
deriving DecidableEq, Repr

/-- Bytes of one encoded field. -/
def RawField.bytes (g : RawField) : List Nat := [g.tag, g.n0, g.n1, g.n2, g.n3]

/-- Field descriptor a wire field decodes to. -/
def RawField.toField (g : RawField) : Option FieldDescriptor :=
  some ⟨(fieldTypeFromByte g.tag).getD (.int 0), leU32 g.n0 g.n1 g.n2 g.n3⟩

/-- Concatenated encoding of a field list. -/
def encodeFields : List RawField → List Nat
  | [] => []
  | g :: gs => g.bytes ++ encodeFields gs

/-- Comma-separated join, the spec's `<a>, <b>, ...` notation. -/
def specCommaSep : List String → String
  | [] => ""
  | [x] => x
  | x :: y :: xs => x ++ ", " ++ specCommaSep (y :: xs)

/-- Spec-side shape of the create DDL,
`CREATE TABLE <resolved name> (<field name> <sql type>, ...)`. -/
def specCreateDdl (nm : String) (cols : List String) : String :=
  "CREATE TABLE " ++ nm ++ " (" ++ specCommaSep cols ++ ")"

/-- Spec-side positional placeholder list `?1, ?2, ..., ?k`. -/
def specPlaceholders (k : Nat) : String :=
  specCommaSep ((List.range' 1 k).map (fun i => "?" ++ toString i))

/-- Concatenation of a list of strings. -/
def strConcat : List String → String
  | [] => ""
  | x :: xs => x ++ strConcat xs

/-- Comma join closed by a parenthesis, the shape the compile column loop
accumulates: every element but the last is followed by a comma, the last
by the closing parenthesis. -/
def colsTail : List String → String
  | [] => ""
  | [x] => x ++ ")"
  | x :: y :: xs => x ++ ", " ++ colsTail (y :: xs)

/-- Wire width of a field, matching the `sql_from_raw` read widths. -/
def wireWidth : FieldType → Nat
  | .int _ => 4
  | .float _ => 4
  | .bool _ => 1
  | .str _ => 4

/-- Total wire width of an entry payload body for a field list. -/
def totalWidth (fds : List FieldDescriptor) : Nat :=
  (fds.map (fun f => wireWidth f.data_type)).sum

/-- Key of a field, its tag and name id, ignoring the decoded payload. -/
def fieldKey (f : FieldDescriptor) : Nat × Nat := (f.data_type.tag, f.name)

/-- Immutable identity of a registered descriptor: compiled statement text,
table-name id, field count and per-slot field keys. -/
def descKey (d : EntryDescriptor) : String × Nat × Nat × List (Option (Nat × Nat)) :=
  (d.sql_cmd, d.name, d.num_fields, d.fields.map (Option.map fieldKey))

/-- C1 (counterexample): the payload `[0,0,0,0, 1, 1,7,0,0,0]` follows the
claimed layout exactly, a 4-byte uid, the field-count byte `1` at offset 4,
and one field group of 5 bytes, yet decoding yields a descriptor whose
field count is 0, not the byte at offset 4: the decoder reads a 4-byte
table-name id between the uid and the count, so the count lives at offset
8, not 4. -/
theorem C1_counterexample :
    (match read_descriptor [0, 0, 0, 0, 1, 1, 7, 0, 0, 0] with
     | .ok (d, _, _) => d.num_fields
     | _ => 999) = 0 ∧ [0, 0, 0, 0, 1, 1, 7, 0, 0, 0][4]? = some 1 := by
  decide

/-- C2: for every byte value that is not a known field tag, the tag
conversion refuses the byte: the source's wildcard arm does not return a
recoverable error but aborts the process with the panic macro, and a
descriptor frame carrying such a tag terminates the whole run loop as a
panic rather than resuming at header scanning. -/
theorem C2_unknown_field_tag_aborts :
    (∀ t, t ≠ 1 → t ≠ 2 → t ≠ 3 → t ≠ 4 → fieldTypeFromByte t = none) ∧
    run 3 .headerParsing proto0
      ([0xEF, 0xBE, 0xED, 0xFE, 0x03] ++ [0, 0, 0, 0] ++ [0, 0, 0, 0] ++ [1] ++ [5, 7, 0, 0, 0]) =
      .panicked "invalid field tag" proto0 := by
  refine ⟨fun t h1 h2 h3 h4 => ?_, by decide⟩
  simp [fieldTypeFromByte, h1, h2, h3, h4]

/-- C2 (witness): the unknown tag byte 5 is refused by the conversion. -/
theorem C2_unknown_field_tag_aborts_witness : fieldTypeFromByte 5 = none :=
  C2_unknown_field_tag_aborts.1 5 (by decide) (by decide) (by decide) (by decide)

/-- C3: looking up a descriptor uid reports the fatal lookup error only for
`uid > length`; at `uid = length` the bounds check `length < uid` passes
and the source indexes `register[uid]` out of bounds, aborting the process,
so the claim's `uid ≥ length → UnknownDescriptor` fails at `uid = length`.
The second conjunct runs the daemon on an entry frame referencing uid 0
with an empty registry: the process aborts instead of erring. -/
theorem C3_find_descriptor_behavior :
    (∀ (register : List EntryDescriptor) (b0 b1 b2 b3 : Nat) (rest : List Nat),
      find_descriptor (b0 :: b1 :: b2 :: b3 :: rest) register =
        (if leU32 b0 b1 b2 b3 < register.length then .ok (leU32 b0 b1 b2 b3, rest)
         else if leU32 b0 b1 b2 b3 = register.length then .panic "index out of bounds"
         else .err (.fatal "Uid not found among the descriptors"))) ∧
    run 3 .headerParsing proto0 ([0xEF, 0xBE, 0xED, 0xFE, 0x02] ++ [0, 0, 0, 0]) =
      .panicked "index out of bounds" proto0 := by
  refine ⟨fun register b0 b1 b2 b3 rest => ?_, by decide⟩
  simp only [find_descriptor, readU32]
  split_ifs <;> first | rfl | omega

/-- C4: registering a descriptor succeeds exactly when the uid equals the
registry length, appending the descriptor, and fails with the fatal
`Unexpected UID` error otherwise, leaving the registry to the caller
unchanged. The second conjunct is the concrete scenario: a descriptor
frame with uid 1 sent to a session whose registry is empty makes the run
loop return the fatal error with the registry still empty. -/
theorem C4_register_discipline :
    (∀ (desc : EntryDescriptor) (uid : Nat) (register : List EntryDescriptor),
      register_descriptor desc uid register =
        (if uid = register.length then .ok (register ++ [desc])
         else .err (.fatal "Unexpected UID"))) ∧
    run 3 .headerParsing ⟨[], ["x"], [], []⟩
      ([0xEF, 0xBE, 0xED, 0xFE, 0x03] ++ [1, 0, 0, 0] ++ [0, 0, 0, 0] ++ [1] ++ [1, 0, 0, 0, 0]) =
      .fatal (.fatal "Unexpected UID") ⟨[], ["x"], [], []⟩ := by
  refine ⟨fun desc uid register => ?_, by decide⟩
  by_cases h : uid = register.length <;> simp [register_descriptor, h]

/-- C5 (counterexample): a stream of one corrupted byte followed by a valid
String frame is not decoded at all, the loop ends starved with the string
table still empty, although the same frame alone decodes and interns its
text: on a magic mismatch the decoder has consumed 5 bytes, not 1, so it
never realigns with the frame start. -/
theorem C5_counterexample :
    run 10 .headerParsing proto0
      ([0x00] ++ [0xEF, 0xBE, 0xED, 0xFE, 0x01, 0, 0, 0, 0, 1, 0, 0, 0, 0x61]) =
      .awaiting proto0 ∧
    run 10 .headerParsing proto0
      [0xEF, 0xBE, 0xED, 0xFE, 0x01, 0, 0, 0, 0, 1, 0, 0, 0, 0x61] =
      .awaiting ⟨[], ["a"], [], []⟩ := by
  constructor <;> decide

/-- C5 (amended): when the 4-byte magic does not match the protocol
constant, the decoder has already consumed the whole 5-byte header (magic
plus type byte) and retries header recognition at the next offset, so the
stream position advances by exactly 5 bytes, not 1. -/
theorem C5_header_mismatch_consumes_five (p : Proto) (b0 b1 b2 b3 b4 : Nat)
    (rest : List Nat) (h : leU32 b0 b1 b2 b3 ≠ PROTOCOL) :
    step .headerParsing p (b0 :: b1 :: b2 :: b3 :: b4 :: rest) =
      .next .headerParsing p rest := by
  simp [step, headerStep, h]

/-- C5 (amended, witness): a zero magic is rejected and the five header
bytes are consumed. -/
theorem C5_header_mismatch_consumes_five_witness :
    leU32 0 0 0 0 ≠ PROTOCOL ∧
    step .headerParsing proto0 [0, 0, 0, 0, 0] = .next .headerParsing proto0 [] :=
  ⟨by decide, C5_header_mismatch_consumes_five proto0 0 0 0 0 0 [] (by decide)⟩

/-- C6 (counterexample): a String frame with uid 1 arriving while the table
is empty is not fatal: the run loop does not return an error but resumes
header scanning, and it decodes the following String frame (uid 0,
text `b`), ending starved with the table holding `b`. -/
theorem C6_counterexample :
    run 10 .headerParsing proto0
      ([0xEF, 0xBE, 0xED, 0xFE, 0x01] ++ [1, 0, 0, 0] ++ [0, 0, 0, 0] ++
       [0xEF, 0xBE, 0xED, 0xFE, 0x01] ++ [0, 0, 0, 0] ++ [1, 0, 0, 0] ++ [0x62]) =
      .awaiting ⟨[], ["b"], [], []⟩ := by
  decide

/-- C6 (amended): when a String frame carries a uid different from the
current string-table length, the session does not end: the daemon logs the
mismatch, keeps the table unchanged, and resumes at header scanning right
after the 8 uid and length bytes it has consumed, leaving the declared
text bytes in the stream. -/
theorem C6_out_of_sequence_string_not_fatal (p : Proto) (u0 u1 u2 u3 s0 s1 s2 s3 : Nat)
    (rest : List Nat) (h : leU32 u0 u1 u2 u3 ≠ p.strings.length) :
    step .stringParsing p (u0 :: u1 :: u2 :: u3 :: s0 :: s1 :: s2 :: s3 :: rest) =
      .next .headerParsing p rest := by
  simp [step, stringParse, readU32, h]

/-- C6 (amended, witness): uid 1 against an empty table is skipped. -/
theorem C6_out_of_sequence_string_not_fatal_witness :
    leU32 1 0 0 0 ≠ proto0.strings.length ∧
    step .stringParsing proto0 [1, 0, 0, 0, 0, 0, 0, 0] = .next .headerParsing proto0 [] :=
  ⟨by decide, C6_out_of_sequence_string_not_fatal proto0 1 0 0 0 0 0 0 0 [] (by decide)⟩

/-- One encoded field occupies exactly 5 bytes, so a field list occupies
`5 * N` bytes. -/
theorem encodeFields_length (gs : List RawField) :
    (encodeFields gs).length = 5 * gs.length := by
  induction gs with
  | nil => simp [encodeFields]
  | cons g gs ih =>
    simp only [encodeFields, RawField.bytes, List.length_append, List.length_cons, ih]
    simp only [List.length_cons, List.length_nil, List.length_nil]
    omega

/-- The descriptor field loop, started at index `i` on an array whose first
`i` slots are `pre` and whose remaining slots are empty, consumes exactly
the encoded field groups and writes each decoded field at consecutive
indices, leaving the slots past the written ones empty. -/
theorem read_fields_append (gs : List RawField) (pre : List (Option FieldDescriptor))
    (bs : List Nat) (htags : ∀ g ∈ gs, (fieldTypeFromByte g.tag).isSome = true)
    (hlen : pre.length + gs.length ≤ 32) :
    read_fields gs.length pre.length (pre ++ List.replicate (32 - pre.length) none)
      (encodeFields gs ++ bs)
      = .ok (pre ++ gs.map RawField.toField ++
             List.replicate (32 - pre.length - gs.length) none, bs) := by
  induction gs generalizing pre with
  | nil => simp [read_fields, encodeFields]
  | cons g gs ih =>
    obtain ⟨dt, hdt⟩ := Option.isSome_iff_exists.mp (htags g (by simp))
    have hpre : pre.length < 32 := by simp at hlen; omega
    have hrep : (32 - pre.length) = (32 - (pre.length + 1)) + 1 := by omega
    have harith : 32 - (pre.length + 1) - gs.length = 32 - pre.length - (gs.length + 1) := by
      omega
    have hstep : read_fields (g :: gs).length pre.length
        (pre ++ List.replicate (32 - pre.length) none) (encodeFields (g :: gs) ++ bs)
      = read_fields gs.length (pre.length + 1)
          ((pre ++ List.replicate (32 - pre.length) none).set pre.length
            (some ⟨dt, leU32 g.n0 g.n1 g.n2 g.n3⟩)) (encodeFields gs ++ bs) := by
      simp only [List.length_cons, encodeFields, RawField.bytes, List.cons_append,
        List.nil_append]
      simp only [read_fields, readU8, readU32, hdt]
      rw [if_pos (by simp only [List.length_append, List.length_replicate]; omega)]
    have hset : (pre ++ List.replicate (32 - pre.length) none).set pre.length
        (some ⟨dt, leU32 g.n0 g.n1 g.n2 g.n3⟩)
      = (pre ++ [some ⟨dt, leU32 g.n0 g.n1 g.n2 g.n3⟩]) ++
          List.replicate (32 - (pre.length + 1)) none := by
      rw [hrep, List.replicate_succ]
      rw [List.set_append_right _ _ (Nat.le_refl _)]
      simp
    have hih := ih (pre ++ [some ⟨dt, leU32 g.n0 g.n1 g.n2 g.n3⟩])
      (fun g' hg' => htags g' (by simp [hg'])) (by simp at hlen ⊢; omega)
    simp only [List.length_append, List.length_cons, List.length_nil, Nat.add_zero,
      Nat.zero_add] at hih
    rw [hstep, hset, hih, harith]
    have htf : RawField.toField g = some ⟨dt, leU32 g.n0 g.n1 g.n2 g.n3⟩ := by
      simp [RawField.toField, hdt]
    simp [htf, List.append_assoc]

/-- The descriptor field loop aborts on an out-of-bounds slot write as soon
as the write index reaches the array length, given complete field groups
with known tags. -/
theorem read_fields_oob (gs : List RawField) (i : Nat)
    (fields : List (Option FieldDescriptor)) (bs : List Nat)
    (htags : ∀ g ∈ gs, (fieldTypeFromByte g.tag).isSome = true)
    (h1 : i ≤ fields.length) (h2 : fields.length < i + gs.length) :
    read_fields gs.length i fields (encodeFields gs ++ bs) = .panic "index out of bounds" := by
  induction gs generalizing i fields with
  | nil => simp at h2; omega
  | cons g gs ih =>
    obtain ⟨dt, hdt⟩ := Option.isSome_iff_exists.mp (htags g (by simp))
    by_cases hi : i < fields.length
    · show read_fields (gs.length + 1) i fields _ = _
      simp only [encodeFields, RawField.bytes, List.cons_append, List.nil_append,
        read_fields, readU8, readU32, hdt]
      rw [if_pos hi]
      exact ih (i + 1) (fields.set i _) (fun g' hg' => htags g' (by simp [hg']))
        (by simp only [List.length_set]; omega)
        (by simp only [List.length_set]; simp only [List.length_cons] at h2; omega)
    · show read_fields (gs.length + 1) i fields _ = _
      simp only [encodeFields, RawField.bytes, List.cons_append, List.nil_append,
        read_fields, readU8, readU32, hdt]
      rw [if_neg hi]

/-- C1 (amended): the descriptor message payload consists of a 4-byte
little-endian uid, a 4-byte little-endian table-name id, a 1-byte field
count `N`, then `N` repetitions of a 1-byte field tag and a 4-byte
little-endian name id, so a complete descriptor payload occupies exactly
`9 + 5 * N` bytes; for every such payload with known tags and `N ≤ 32`,
decoding succeeds and yields a descriptor whose uid, table-name id, field
count, field tags and name ids equal the corresponding payload bytes, in
order, with the remaining input untouched. -/
theorem C1_descriptor_layout (u0 u1 u2 u3 m0 m1 m2 m3 : Nat) (gs : List RawField)
    (bs : List Nat) (htags : ∀ g ∈ gs, (fieldTypeFromByte g.tag).isSome = true)
    (hn : gs.length ≤ 32) (_hbyte : gs.length ≤ 255) :
    read_descriptor ([u0, u1, u2, u3] ++ [m0, m1, m2, m3] ++ [gs.length] ++
        encodeFields gs ++ bs)
      = .ok ({ sql_cmd := "INSERT INTO ", name := leU32 m0 m1 m2 m3,
               num_fields := gs.length,
               fields := gs.map RawField.toField ++ List.replicate (32 - gs.length) none },
             leU32 u0 u1 u2 u3, bs) ∧
    (encodeFields gs).length = 5 * gs.length := by
  refine ⟨?_, encodeFields_length gs⟩
  have h := read_fields_append gs [] bs htags (by simpa)
  simp only [List.nil_append, List.length_nil, Nat.sub_zero, Nat.zero_add] at h
  simp only [read_descriptor, List.cons_append, List.nil_append, readU32, readU8,
    EntryDescriptor.make]
  rw [h]

/-- C1 (amended, witness): a concrete two-field payload, uid 6, name id 9,
fields tagged Int with name id 7 and Float with name id 8, decodes to the
matching descriptor with nothing left over. -/
theorem C1_descriptor_layout_witness :
    read_descriptor [6, 0, 0, 0, 9, 0, 0, 0, 2, 1, 7, 0, 0, 0, 2, 8, 0, 0, 0] =
      .ok ({ sql_cmd := "INSERT INTO ", name := 9, num_fields := 2,
             fields := [some ⟨.int 0, 7⟩, some ⟨.float 0, 8⟩] ++ List.replicate 30 none },
           6, []) := by
  have h := (C1_descriptor_layout 6 0 0 0 9 0 0 0 [⟨1, 7, 0, 0, 0⟩, ⟨2, 8, 0, 0, 0⟩] []
    (by decide) (by decide) (by decide)).1
  exact h

/-- C10: decoding a complete descriptor payload with known tags writes each
parsed field at consecutive indices of the fixed 32-slot array without
validating the field-count byte against the 32-field maximum: when the
count is at most 32 no abort happens, and for every payload declaring 33
or more fields the decoder aborts on an out-of-bounds array write instead
of reporting an error. -/
theorem C10_field_count_bound (u0 u1 u2 u3 m0 m1 m2 m3 : Nat) (gs : List RawField)
    (bs : List Nat) (htags : ∀ g ∈ gs, (fieldTypeFromByte g.tag).isSome = true)
    (hbyte : gs.length ≤ 255) :
    (gs.length ≤ 32 →
      ∀ m, read_descriptor ([u0, u1, u2, u3] ++ [m0, m1, m2, m3] ++ [gs.length] ++
        encodeFields gs ++ bs) ≠ .panic m) ∧
    (32 < gs.length →
      read_descriptor ([u0, u1, u2, u3] ++ [m0, m1, m2, m3] ++ [gs.length] ++
        encodeFields gs ++ bs) = .panic "index out of bounds") := by
  constructor
  · intro h32 m
    have h := read_fields_append gs [] bs htags (by simpa)
    simp only [List.nil_append, List.length_nil, Nat.sub_zero, Nat.zero_add] at h
    simp only [read_descriptor, List.cons_append, List.nil_append, readU32, readU8,
      EntryDescriptor.make]
    rw [h]
    simp
  · intro h32
    have h := read_fields_oob gs 0 (List.replicate 32 none) bs htags (by simp)
      (by simp; omega)
    simp only [read_descriptor, List.cons_append, List.nil_append, readU32, readU8,
      EntryDescriptor.make]
    rw [h]

/-- Unfolding of the comma join on a provably nonempty tail. -/
theorem specCommaSep_cons (x : String) (ys : List String) (h : ys ≠ []) :
    specCommaSep (x :: ys) = x ++ ", " ++ specCommaSep ys := by
  cases ys with
  | nil => exact absurd rfl h
  | cons y ys => rfl

/-- The comma-or-parenthesis accumulator is the comma join followed by the
closing parenthesis. -/
theorem colsTail_eq_commaSep (xs : List String) (h : xs ≠ []) :
    colsTail xs = specCommaSep xs ++ ")" := by
  induction xs with
  | nil => exact absurd rfl h
  | cons x ys ih =>
    cases ys with
    | nil => rfl
    | cons y zs =>
      show x ++ ", " ++ colsTail (y :: zs) = specCommaSep (x :: y :: zs) ++ ")"
      rw [ih (by simp), specCommaSep_cons x (y :: zs) (by simp)]
      simp [String.append_assoc]

/-- Appending one last comma-free element to a comma-suffixed concatenation
yields the comma join of the extended list, with any trailing text. -/
theorem strConcat_comma_snoc (g : α → String) (s : String) :
    ∀ (xs : List α) (x : α),
      strConcat (xs.map (fun a => g a ++ ", ")) ++ (g x ++ s)
        = specCommaSep ((xs ++ [x]).map g) ++ s := by
  intro xs
  induction xs with
  | nil =>
    intro x
    simp [strConcat, specCommaSep]
  | cons a as ih =>
    intro x
    simp only [List.map_cons, strConcat, List.cons_append]
    rw [String.append_assoc, ih x]
    rw [specCommaSep_cons _ _ (by simp)]
    simp [String.append_assoc]

/-- Index into the populated prefix of a descriptor field array. -/
theorem fields_getElem_populated (fds : List FieldDescriptor)
    (pad : List (Option FieldDescriptor)) (i : Nat) (hi : i < fds.length) :
    (fds.map some ++ pad)[i]? = some (some fds[i]) := by
  rw [List.getElem?_append_left (by simpa using hi)]
  simp [List.getElem?_eq_getElem, hi]

/-- The compile column loop on an array whose populated prefix is `fds`
appends the resolved column names separated by commas and closed with the
parenthesis, walking the indices from `i` to the field count. -/
theorem compileCols_spec (strings : List String) (fds : List FieldDescriptor)
    (pad : List (Option FieldDescriptor))
    (hres : ∀ f ∈ fds, (strings[f.name]?).isSome = true) :
    ∀ c i acc, i + c = fds.length →
      compileCols strings (fds.map some ++ pad) fds.length c i acc
        = .ok (acc ++ colsTail ((fds.drop i).map (fun f => (strings[f.name]?).getD ""))) := by
  intro c
  induction c with
  | zero =>
    intro i acc h
    rw [List.drop_eq_nil_of_le (by omega)]
    simp [compileCols, colsTail]
  | succ c ih =>
    intro i acc h
    have hi : i < fds.length := by omega
    have hidx := fields_getElem_populated fds pad i hi
    obtain ⟨fn, hfn⟩ := Option.isSome_iff_exists.mp (hres _ (List.getElem_mem hi))
    have hdrop : fds.drop i = fds[i] :: fds.drop (i + 1) := List.drop_eq_getElem_cons hi
    simp only [compileCols, hidx, hfn]
    rw [ih (i + 1) _ (by omega), hdrop]
    simp only [List.map_cons]
    by_cases hc : c = 0
    · subst hc
      rw [if_neg (by omega), List.drop_eq_nil_of_le (by omega)]
      simp [colsTail, hfn, String.append_assoc]
    · rw [if_pos (by omega)]
      have h1 : i + 1 < fds.length := by omega
      rw [List.drop_eq_getElem_cons h1]
      simp only [List.map_cons, colsTail, hfn]
      simp [String.append_assoc]

/-- The create column loop on an array whose populated prefix is `fds`
appends one resolved, typed, comma-suffixed column per index walked. -/
theorem createCols_spec (strings : List String) (fds : List FieldDescriptor)
    (pad : List (Option FieldDescriptor))
    (hres : ∀ f ∈ fds, (strings[f.name]?).isSome = true) :
    ∀ c i acc, i + c ≤ fds.length →
      createCols strings (fds.map some ++ pad) c i acc
        = .ok (acc ++ strConcat (((fds.drop i).take c).map
            (fun f => (strings[f.name]?).getD "" ++ " " ++ f.data_type.sqlName ++ ", "))) := by
  intro c
  induction c with
  | zero =>
    intro i acc h
    simp [createCols, strConcat]
  | succ c ih =>
    intro i acc h
    have hi : i < fds.length := by omega
    have hidx := fields_getElem_populated fds pad i hi
    obtain ⟨fn, hfn⟩ := Option.isSome_iff_exists.mp (hres _ (List.getElem_mem hi))
    have hdrop : fds.drop i = fds[i] :: fds.drop (i + 1) := List.drop_eq_getElem_cons hi
    simp only [createCols, hidx, hfn]
    rw [ih (i + 1) _ (by omega), hdrop]
    simp only [List.take_succ_cons, List.map_cons, strConcat, hfn]
    simp [String.append_assoc]

/-- The placeholder loop appends one `?<j>, ` group per index walked. -/
theorem compilePlaceholders_spec :
    ∀ c i acc, compilePlaceholders c i acc
      = acc ++ strConcat ((List.range' i c).map (fun j => "?" ++ toString j ++ ", ")) := by
  intro c
  induction c with
  | zero =>
    intro i acc
    simp [compilePlaceholders, strConcat]
  | succ c ih =>
    intro i acc
    rw [List.range'_succ]
    simp only [compilePlaceholders, List.map_cons, strConcat]
    rw [ih]
    simp [String.append_assoc]

/-- The spec placeholder join peels into the loop-generated prefix and the
final placeholder. -/
theorem specPlaceholders_peel (n : Nat) (h : 1 ≤ n) (s : String) :
    strConcat ((List.range' 1 (n - 1)).map (fun j => "?" ++ toString j ++ ", "))
        ++ ("?" ++ toString n ++ s)
      = specPlaceholders n ++ s := by
  have hs := strConcat_comma_snoc (fun j => "?" ++ toString j) s (List.range' 1 (n - 1)) n
  have hr : List.range' 1 (n - 1) ++ [n] = List.range' 1 n := by
    conv_rhs => rw [show n = (n - 1) + 1 by omega]
    rw [List.range'_1_concat]
    congr 2
    omega
  rw [hr] at hs
  rw [specPlaceholders]
  exact hs

/-- Decoding one field value succeeds whenever the buffered window holds at
least the field's wire width, consumes exactly that width, binds a value of
the field's kind and preserves the field's tag and name. -/
theorem sql_from_raw_success (f : FieldDescriptor) (bs : List Nat)
    (h : wireWidth f.data_type ≤ bs.length) :
    ∃ f' v, sql_from_raw f bs = some (f', v, bs.drop (wireWidth f.data_type)) ∧
      SqlValue.kind v = f.data_type.tag ∧ fieldKey f' = fieldKey f := by
  obtain ⟨ft, nm⟩ := f
  cases ft with
  | int v0 =>
    rcases bs with _ | ⟨b0, _ | ⟨b1, _ | ⟨b2, _ | ⟨b3, rest⟩⟩⟩⟩ <;>
      first
        | exact ⟨_, _, rfl, rfl, rfl⟩
        | simp [wireWidth] at h
  | float v0 =>
    rcases bs with _ | ⟨b0, _ | ⟨b1, _ | ⟨b2, _ | ⟨b3, rest⟩⟩⟩⟩ <;>
      first
        | exact ⟨_, _, rfl, rfl, rfl⟩
        | simp [wireWidth] at h
  | bool v0 =>
    rcases bs with _ | ⟨b0, rest⟩ <;>
      first
        | exact ⟨_, _, rfl, rfl, rfl⟩
        | simp [wireWidth] at h
  | str v0 =>
    rcases bs with _ | ⟨b0, _ | ⟨b1, _ | ⟨b2, _ | ⟨b3, rest⟩⟩⟩⟩ <;>
      first
        | exact ⟨_, _, rfl, rfl, rfl⟩
        | simp [wireWidth] at h

/-- The entry field loop, on an array whose populated prefix is `fds` padded
with empty slots, decodes one value per populated field when the window
holds the whole entry, never sets the failed flag, and binds the values in
field order, one per field, each of the field's kind. -/
theorem process_fields_spec (fds : List FieldDescriptor) :
    ∀ (m : Nat) (bs : List Nat), totalWidth fds ≤ bs.length →
      ∃ fields' params rest,
        process_fields (fds.map some ++ List.replicate m none) bs
          = (fields', params, rest, false) ∧
        params.map SqlValue.kind = fds.map (fun f => f.data_type.tag) ∧
        params.length = fds.length := by
  induction fds with
  | nil =>
    intro m bs h
    cases m with
    | zero => exact ⟨[], [], bs, rfl, rfl, rfl⟩
    | succ m => exact ⟨none :: List.replicate m none, [], bs, rfl, rfl, rfl⟩
  | cons f fds ih =>
    intro m bs h
    have hw : wireWidth f.data_type ≤ bs.length := by
      simp [totalWidth] at h; omega
    obtain ⟨f', v, hsql, hkind, hkey⟩ := sql_from_raw_success f bs hw
    have hrest : totalWidth fds ≤ (bs.drop (wireWidth f.data_type)).length := by
      simp only [totalWidth, List.map_cons, List.sum_cons] at h
      simp only [List.length_drop, totalWidth]
      omega
    obtain ⟨fields', params, rest, hpf, hmap, hlen⟩ := ih m _ hrest
    refine ⟨some f' :: fields', v :: params, rest, ?_, ?_, ?_⟩
    · show process_fields (some f :: (fds.map some ++ List.replicate m none)) bs = _
      rw [process_fields, hsql]
      dsimp only
      rw [hpf]
    · simp [hmap, hkind]
    · simp [hlen]

/-- A nonempty list is its length-minus-one prefix extended by its last
element. -/
theorem take_append_getElem_last (l : List α) (hne : l ≠ [])
    (hlt : l.length - 1 < l.length) :
    l.take (l.length - 1) ++ [l[l.length - 1]] = l := by
  conv_rhs => rw [← List.dropLast_append_getLast hne]
  rw [List.dropLast_eq_take, List.getLast_eq_getElem]

/-- C7: for a descriptor with `k` populated fields, `1 ≤ k ≤ 32`, whose
table and field names resolve, the compiled insert statement text is the
column list followed by exactly the `k` positional placeholders
`?1, ..., ?k` in field order, and decoding a complete entry payload
against the descriptor's fields binds exactly `k` values, in field order,
each of its field's kind. -/
theorem C7_insert_round_trip (strings : List String) (d : EntryDescriptor)
    (fds : List FieldDescriptor) (nm : String) (bs : List Nat)
    (hf : d.fields = fds.map some ++ List.replicate (32 - fds.length) none)
    (hk : d.num_fields = fds.length)
    (hk1 : 1 ≤ fds.length) (hk32 : fds.length ≤ 32)
    (hnm : strings[d.name]? = some nm)
    (hres : ∀ f ∈ fds, (strings[f.name]?).isSome = true)
    (hbs : totalWidth fds ≤ bs.length) :
    (∃ d', d.compile strings = .ok d' ∧
      d'.sql_cmd = d.sql_cmd ++ nm ++ " (" ++
        specCommaSep (fds.map (fun f => (strings[f.name]?).getD "")) ++ ")" ++
        " VALUES (" ++ specPlaceholders fds.length ++ ")") ∧
    (∃ fields' params rest,
      process_fields d.fields bs = (fields', params, rest, false) ∧
      params.map SqlValue.kind = fds.map (fun f => f.data_type.tag) ∧
      params.length = fds.length) := by
  constructor
  · have hcols := compileCols_spec strings fds (List.replicate (32 - fds.length) none) hres
      fds.length 0 (d.sql_cmd ++ nm ++ " (") (by omega)
    simp only [List.drop_zero] at hcols
    have hmain :
        d.compile strings = .ok
          { d with
            sql_cmd :=
              compilePlaceholders (fds.length - 1) 1
                (d.sql_cmd ++ nm ++ " (" ++
                  colsTail (fds.map fun f => (strings[f.name]?).getD "") ++ " VALUES (") ++
                "?" ++ toString fds.length ++ ")" } := by
      simp only [EntryDescriptor.compile, hnm, hk, hf]
      rw [hcols]
    refine ⟨_, hmain, ?_⟩
    show compilePlaceholders (fds.length - 1) 1
        (d.sql_cmd ++ nm ++ " (" ++
          colsTail (fds.map fun f => (strings[f.name]?).getD "") ++ " VALUES (")
        ++ "?" ++ toString fds.length ++ ")" = _
    rw [compilePlaceholders_spec]
    rw [colsTail_eq_commaSep _
      (by
        intro hc
        have h0 : fds.length = 0 := by simpa using congrArg List.length hc
        omega)]
    have hpeel := specPlaceholders_peel fds.length hk1 ")"
    simp only [String.append_assoc] at hpeel ⊢
    rw [hpeel]
  · rw [hf]
    exact process_fields_spec fds (32 - fds.length) bs hbs

/-- C7 (witness): the scenario descriptor, table name id 8 resolving to
`sensors` and one Int field named by id 7 resolving to `temperature`,
compiles to an insert whose text carries exactly one placeholder, and the
scenario entry payload `2A 00 00 00` binds exactly one value of Int kind. -/
theorem C7_insert_round_trip_witness :
    (∃ d', EntryDescriptor.compile
        { sql_cmd := "INSERT INTO ", name := 8, num_fields := 1,
          fields := ([⟨.int 0, 7⟩] : List FieldDescriptor).map some ++ List.replicate 31 none }
        ["", "", "", "", "", "", "", "temperature", "sensors"] = .ok d' ∧
      d'.sql_cmd = "INSERT INTO sensors (temperature) VALUES (?1)") ∧
    (∃ fields' params rest,
      process_fields (([⟨.int 0, 7⟩] : List FieldDescriptor).map some ++
          List.replicate 31 none) [42, 0, 0, 0]
        = (fields', params, rest, false) ∧
      params.map SqlValue.kind = [1] ∧ params.length = 1) := by
  have h := C7_insert_round_trip ["", "", "", "", "", "", "", "temperature", "sensors"]
    { sql_cmd := "INSERT INTO ", name := 8, num_fields := 1,
      fields := ([⟨.int 0, 7⟩] : List FieldDescriptor).map some ++ List.replicate 31 none }
    [⟨.int 0, 7⟩] "sensors" [42, 0, 0, 0]
    rfl rfl (by decide) (by decide) (by decide) (by decide) (by decide)
  obtain ⟨⟨d', hc, hs⟩, fields', params, rest, hpf, hm, hl⟩ := h
  refine ⟨⟨d', hc, ?_⟩, fields', params, rest, hpf, ?_, ?_⟩
  · rw [hs]; decide
  · simpa using hm
  · simpa using hl

/-- C8: for a descriptor whose table name and field names resolve in the
string table, with one to 32 populated fields, the compiled create DDL is
exactly `CREATE TABLE <resolved name> (<field name> <sql type>, ...)`, the
columns in the descriptor's field order, each column typed by the source's
tag-to-type mapping (INTEGER for Int and Bool, REAL for Float, TEXT for
Str). -/
theorem C8_create_ddl (strings : List String) (d : EntryDescriptor)
    (fds : List FieldDescriptor) (nm : String)
    (hf : d.fields = fds.map some ++ List.replicate (32 - fds.length) none)
    (hk : d.num_fields = fds.length)
    (hk1 : 1 ≤ fds.length) (hk32 : fds.length ≤ 32)
    (hnm : strings[d.name]? = some nm)
    (hres : ∀ f ∈ fds, (strings[f.name]?).isSome = true) :
    d.make_create_cmd strings
      = .ok (specCreateDdl nm
          (fds.map (fun f => (strings[f.name]?).getD "" ++ " " ++ f.data_type.sqlName))) := by
  have hne : fds ≠ [] := by
    intro hx
    rw [hx] at hk1
    simp at hk1
  have hlt : fds.length - 1 < fds.length := by omega
  have hcc := createCols_spec strings fds (List.replicate (32 - fds.length) none) hres
    (fds.length - 1) 0 ("CREATE TABLE " ++ nm ++ " (") (by omega)
  simp only [List.drop_zero] at hcc
  have hidx := fields_getElem_populated fds (List.replicate (32 - fds.length) none)
    (fds.length - 1) hlt
  obtain ⟨fn, hfn⟩ := Option.isSome_iff_exists.mp (hres _ (List.getElem_mem hlt))
  simp only [EntryDescriptor.make_create_cmd, hnm, hk, hf]
  rw [if_neg (by omega)]
  rw [hcc]
  dsimp only
  rw [hidx]
  dsimp only
  rw [hfn]
  dsimp only
  have hsnoc := strConcat_comma_snoc
    (fun f : FieldDescriptor => (strings[f.name]?).getD "" ++ " " ++ f.data_type.sqlName) ")"
    (fds.take (fds.length - 1)) (fds[fds.length - 1])
  rw [take_append_getElem_last fds hne hlt] at hsnoc
  simp only [hfn, Option.getD_some] at hsnoc
  simp only [specCreateDdl]
  simp only [String.append_assoc] at hsnoc ⊢
  rw [hsnoc]

/-- C8 (witness): the scenario A descriptor, table name id 8 resolving to
`sensors` and one Int field named by id 7 resolving to `temperature`,
compiles to exactly `CREATE TABLE sensors (temperature INTEGER)`. -/
theorem C8_create_ddl_witness :
    EntryDescriptor.make_create_cmd
      { sql_cmd := "INSERT INTO ", name := 8, num_fields := 1,
        fields := ([⟨.int 0, 7⟩] : List FieldDescriptor).map some ++ List.replicate 31 none }
      ["", "", "", "", "", "", "", "temperature", "sensors"]
      = .ok "CREATE TABLE sensors (temperature INTEGER)" := by
  have h := C8_create_ddl ["", "", "", "", "", "", "", "temperature", "sensors"]
    { sql_cmd := "INSERT INTO ", name := 8, num_fields := 1,
      fields := ([⟨.int 0, 7⟩] : List FieldDescriptor).map some ++ List.replicate 31 none }
    [⟨.int 0, 7⟩] "sensors" rfl rfl (by decide) (by decide) (by decide) (by decide)
  rw [h]
  decide

/-- Decoding one field value through the registry's mutable borrow can only
change the field's payload: the tag and the name id of the written-back
field equal those of the registered field. -/
theorem sql_from_raw_key (f f' : FieldDescriptor) (v : SqlValue) (bs rest : List Nat)
    (h : sql_from_raw f bs = some (f', v, rest)) : fieldKey f' = fieldKey f := by
  obtain ⟨ft, nm⟩ := f
  cases ft <;> simp only [sql_from_raw] at h <;> split at h <;>
    first
      | (injection h with h'
         injection h' with ha hbc
         subst ha
         rfl)
      | injection h

/-- The entry field loop preserves every slot's field key: populated slots
stay populated with the same tag and name id, empty slots stay empty. -/
theorem process_fields_keys (fs : List (Option FieldDescriptor)) (bs : List Nat) :
    (process_fields fs bs).1.map (Option.map fieldKey) = fs.map (Option.map fieldKey) := by
  induction fs generalizing bs with
  | nil => rfl
  | cons o t ih =>
    cases o with
    | none => rfl
    | some fd =>
      cases hr : sql_from_raw fd bs with
      | none =>
        show (process_fields (some fd :: t) bs).1.map _ = _
        rw [process_fields, hr]
      | some p =>
        obtain ⟨fd', v, rest⟩ := p
        have hkey := sql_from_raw_key fd fd' v bs rest hr
        show (process_fields (some fd :: t) bs).1.map _ = _
        rw [process_fields, hr]
        dsimp only
        simp [ih, hkey]

/-- A successful descriptor lookup implies the uid is strictly below the
registry length. -/
theorem find_descriptor_ok_lt (bs : List Nat) (register : List EntryDescriptor)
    (uid : Nat) (rest : List Nat) (h : find_descriptor bs register = .ok (uid, rest)) :
    uid < register.length := by
  simp only [find_descriptor] at h
  cases hr : readU32 bs with
  | none => rw [hr] at h; simp at h
  | some p =>
    obtain ⟨u, r⟩ := p
    rw [hr] at h
    dsimp only at h
    split at h
    · simp at h
    · split at h
      · simp only [Outcome.ok.injEq, Prod.mk.injEq] at h
        omega
      · simp at h

/-- Setting a list element back to its own value is the identity. -/
theorem set_getElem_self_list (l : List α) (i : Nat) (h : i < l.length) :
    l.set i l[i] = l := by
  induction l generalizing i with
  | nil => simp at h
  | cons a t ih =>
    cases i with
    | zero => rfl
    | succ i =>
      have hi : i < t.length := by simpa using h
      show a :: t.set i (a :: t)[i + 1] = a :: t
      rw [List.getElem_cons_succ, ih i hi]

/-- Overwriting position `i` of a mapped list with the image of the
original element at `i` changes nothing. -/
theorem map_set_getD_self (f : α → β) (l : List α) (i : Nat) (d : α) (h : i < l.length) :
    (l.map f).set i (f (l.getD i d)) = l.map f := by
  have hm : i < (l.map f).length := by simpa using h
  have h1 : l.getD i d = l[i] := by
    rw [List.getD_eq_getElem?_getD, List.getElem?_eq_getElem h]
    rfl
  have h2 : f l[i] = (l.map f)[i] := (List.getElem_map f).symm
  rw [h1, h2]
  exact set_getElem_self_list (l.map f) i hm

/-- C9: processing an entry frame never changes the identity of any
registered descriptor: whenever the entry step continues the loop, every
descriptor in the registry keeps its compiled statement text, table-name
id, field count and per-slot field tags and name ids; only decoded field
payloads are written through the source's mutable borrow. -/
theorem C9_entry_preserves_registered_descriptors (p : Proto) (bs : List Nat) :
    match step .entryParsing p bs with
    | .next _ p' _ => p'.descriptors.map descKey = p.descriptors.map descKey
    | .term _ => True := by
  show match entryStep p bs with
    | .next _ p' _ => p'.descriptors.map descKey = p.descriptors.map descKey
    | .term _ => True
  cases hfd : find_descriptor bs p.descriptors with
  | ok pr =>
    obtain ⟨uid, rest⟩ := pr
    have hlt := find_descriptor_ok_lt bs p.descriptors uid rest hfd
    rw [entryStep, hfd]
    dsimp only
    have hdk : descKey { p.descriptors.getD uid EntryDescriptor.make with
        fields := (process_fields (p.descriptors.getD uid EntryDescriptor.make).fields rest).1 }
      = descKey (p.descriptors.getD uid EntryDescriptor.make) := by
      simp [descKey, process_fields_keys]
    split
    all_goals
      simp only [List.map_set, hdk]
      exact map_set_getD_self descKey p.descriptors uid EntryDescriptor.make hlt
  | err e =>
    cases e with
    | space => rw [entryStep, hfd]
    | readFailure => rw [entryStep, hfd]; trivial
    | fatal m => rw [entryStep, hfd]; trivial
  | panic m => rw [entryStep, hfd]; trivial

/-- C10 (witness): a complete payload declaring 33 Int fields makes the
decoder abort on the out-of-bounds write of slot 32. -/
theorem C10_field_count_bound_witness :
    read_descriptor ([0, 0, 0, 0] ++ [0, 0, 0, 0] ++
        [(List.replicate 33 (⟨1, 0, 0, 0, 0⟩ : RawField)).length] ++
        encodeFields (List.replicate 33 ⟨1, 0, 0, 0, 0⟩) ++ []) =
      .panic "index out of bounds" :=
  (C10_field_count_bound 0 0 0 0 0 0 0 0 (List.replicate 33 ⟨1, 0, 0, 0, 0⟩) []
    (by decide) (by decide)).2 (by decide)

end Dae
